import Mathlib

set_option maxRecDepth 100000
set_option linter.unusedVariables false

/-!
Verification of the `clahe-rs` core (`src/lib.rs`): Contrast-Limited Adaptive
Histogram Equalization over 8-bit grayscale images with the fixed 8 x 8 tile
grid and clip limit 40 that the source hardcodes.

Modelling conventions.
The `u32` machine integers of the source are modelled as `Nat`; every
subtraction and division the source performs is guarded, in the model, by the
exact conditions under which the Rust operation would panic (checked-underflow
subtraction, division by zero, out-of-bounds indexing, `unwrap` on `Err`), and
a panic is modelled as `Option.none` or `RustResult.panic`.  The source
computes interpolation weights in `f32` and the histogram CDF in `f64`; those
values are modelled in exact arithmetic (`Rat`, truncated `Nat` division), and
each theorem below that touches them only uses facts that are invariant under
the rounding of the floating-point steps (sign of a weight, monotonicity of
the CDF map, branches where the weight is exactly representable).
-/

/-- An in-memory grayscale image (`image::GrayImage`): dimensions plus the
sample at each coordinate.  A `u8` sample satisfies `data x y ≤ 255`; theorems
that need this state it as a hypothesis. -/
structure GrayImage where
  width : Nat
  height : Nat
  data : Nat → Nat → Nat

/-- `imageproc::stats::ChannelHistogram`: one list of 256 bin counts per
channel of the image the histogram was taken from. -/
structure ChannelHistogram where
  channels : List (List Nat)
  deriving DecidableEq

/-- The `TileCoordinate` struct of the source: a zero-based grid cell index. -/
structure TileCoordinate where
  x : Nat
  y : Nat
  deriving DecidableEq

/-- Outcome of a Rust function returning `Result<A, ()>`, with `panic`
modelling an arithmetic-check or indexing panic inside the function body. -/
inductive RustResult (α : Type) where
  | ok (a : α)
  | err
  | panic
  deriving DecidableEq

/-- Row-major pixel listing of the `SubImage` with origin `(x0, y0)` and size
`w × h`, as materialized by `tile.to_image()` in `clahe` (lines 28-36). -/
def tilePixels (img : GrayImage) (x0 y0 w h : Nat) : List Nat :=
  ((List.range h).map (fun dy =>
    (List.range w).map (fun dx => img.data (x0 + dx) (y0 + dy)))).flatten

/-- `imageproc::stats::histogram` on a single-channel 8-bit image: one channel
of 256 bins, bin `v` counting the pixels of intensity `v`. -/
def histogram (pixels : List Nat) : ChannelHistogram :=
  ⟨[(List.range 256).map (fun v => pixels.count v)]⟩

/-- The total excess accumulated by the first loop of `clip_histogram`
(lines 117-122): for each bin above `limit` the amount `count - limit`. -/
def clipExcess (bins : List Nat) (limit : Nat) : Nat :=
  (bins.map (fun c => if limit < c then c - limit else 0)).sum

/-- The transformation `clip_histogram` applies to its single channel: clip
each bin to `limit`, then add `excess / 256` (truncated division, line 124) to
every bin (lines 126-128). -/
def clipChannel (bins : List Nat) (limit : Nat) : List Nat :=
  (bins.map (fun c => if limit < c then limit else c)).map
    (fun c => c + clipExcess bins limit / 256)

/-- `clip_histogram` (lines 110-131).  `none` models the
`panic!("Too many channels!")` taken when the histogram does not have exactly
one channel (lines 113-115); the process terminates, no value is returned. -/
def clip_histogram (h : ChannelHistogram) (limit : Nat) : Option ChannelHistogram :=
  if h.channels.length ≠ 1 then none
  else some ⟨h.channels.map (fun bins => clipChannel bins limit)⟩

/-- The running value of `num_pixels_seen` in `perform_gray_level_mapping`:
inclusive prefix sums of the bin list, starting from `acc`. -/
def prefixSums : List Nat → Nat → List Nat
  | [], _ => []
  | c :: rest, acc => (acc + c) :: prefixSums rest (acc + c)

/-- `perform_gray_level_mapping` (lines 133-143).  The source computes
`(num_pixels_seen as f64 / num_pixels as f64 * 255.0) as u8`; the model uses
the exact truncated division `seen * 255 / num_pixels` (for `num_pixels = 0`
both yield `0`: `0.0 / 0.0` is NaN and `NaN as u8` is `0`).  Every step of the
`f64` computation (division, scaling, truncating saturating cast) is monotone
in `num_pixels_seen`, so the order-theoretic facts proved below about the
model hold of the source as well. -/
def perform_gray_level_mapping (hist : ChannelHistogram) : List Nat :=
  let bins := hist.channels.headD []
  (prefixSums bins 0).map (fun seen => seen * 255 / bins.sum)

/-- `get_pixel_coordinate_from_tile_coordinate` (lines 286-288): the pixel
coordinate of the center of tile `tile_coord` along one axis. -/
def get_pixel_coordinate_from_tile_coordinate (tile_coord pixels_per_tile : Nat) : Nat :=
  pixels_per_tile / 2 + tile_coord * pixels_per_tile

/-- `is_corner_region` (lines 151-188).  The leading divisions
`dim_x / tiles_hz` and `dim_y / tiles_vt` panic when a tile count is zero
(modelled as `.panic`); afterwards no subtraction can underflow, since
`tile_width * tiles_hz ≥ tile_width / 2` whenever `tiles_hz ≥ 1`, so `Nat`
subtraction coincides with `u32` subtraction. -/
def is_corner_region (x y tiles_hz tiles_vt dim_x dim_y : Nat) :
    RustResult TileCoordinate :=
  if tiles_hz = 0 ∨ tiles_vt = 0 then .panic else
  let tile_width := dim_x / tiles_hz
  let tile_height := dim_y / tiles_vt
  if x ≤ tile_width / 2 ∧ y ≤ tile_height / 2 then
    .ok ⟨0, 0⟩
  else if tile_width * tiles_hz - tile_width / 2 < x ∧ y ≤ tile_height / 2 then
    .ok ⟨tiles_hz - 1, 0⟩
  else if tile_width * tiles_hz - tile_width / 2 < x ∧
      tile_height * tiles_vt - tile_height / 2 < y then
    .ok ⟨tiles_hz - 1, tiles_vt - 1⟩
  else if x ≤ tile_width / 2 ∧ tile_height * tiles_vt - tile_height / 2 < y then
    .ok ⟨0, tiles_vt - 1⟩
  else .err

/-- `is_border_region` (lines 190-248).  In each accepting branch the source
computes `(coord - half_tile) / tile_extent` and `tiles - 2` on `u32`; the
model returns `.panic` exactly when the subtraction would underflow, the
division would be by zero, or `tiles - 2` would underflow. -/
def is_border_region (x y tiles_hz tiles_vt dim_x dim_y : Nat) :
    RustResult (TileCoordinate × TileCoordinate) :=
  if tiles_hz = 0 ∨ tiles_vt = 0 then .panic else
  let tile_width := dim_x / tiles_hz
  let tile_height := dim_y / tiles_vt
  if y ≤ tile_height / 2 then
    if x < tile_width / 2 ∨ tile_width = 0 ∨ tiles_hz < 2 then .panic else
    let left_x := min ((x - tile_width / 2) / tile_width) (tiles_hz - 2)
    .ok (⟨left_x, 0⟩, ⟨left_x + 1, 0⟩)
  else if tiles_vt * tile_height - tile_height / 2 < y then
    if x < tile_width / 2 ∨ tile_width = 0 ∨ tiles_hz < 2 then .panic else
    let left_x := min ((x - tile_width / 2) / tile_width) (tiles_hz - 2)
    .ok (⟨left_x, tiles_vt - 1⟩, ⟨left_x + 1, tiles_vt - 1⟩)
  else if x ≤ tile_width / 2 then
    if y < tile_height / 2 ∨ tile_height = 0 ∨ tiles_vt < 2 then .panic else
    let top_y := min ((y - tile_height / 2) / tile_height) (tiles_vt - 2)
    .ok (⟨0, top_y⟩, ⟨0, top_y + 1⟩)
  else if tiles_hz * tile_width - tile_width / 2 < x then
    if y < tile_height / 2 ∨ tile_height = 0 ∨ tiles_vt < 2 then .panic else
    let top_y := min ((y - tile_height / 2) / tile_height) (tiles_vt - 2)
    .ok (⟨tiles_hz - 1, top_y⟩, ⟨tiles_hz - 1, top_y + 1⟩)
  else .err

/-- `get_neighbor_tiles` (lines 250-284): the four surrounding tiles in order
top-left, top-right, bottom-right, bottom-left.  Always `Ok` in the source;
`.panic` models the same underflow and division-by-zero checks as for
`is_border_region`. -/
def get_neighbor_tiles (x y tiles_hz tiles_vt dim_x dim_y : Nat) :
    RustResult (TileCoordinate × TileCoordinate × TileCoordinate × TileCoordinate) :=
  if tiles_hz = 0 ∨ tiles_vt = 0 then .panic else
  let tile_width := dim_x / tiles_hz
  let tile_height := dim_y / tiles_vt
  if x < tile_width / 2 ∨ tile_width = 0 ∨ tiles_hz < 2 ∨
      y < tile_height / 2 ∨ tile_height = 0 ∨ tiles_vt < 2 then .panic else
  let left_x := min ((x - tile_width / 2) / tile_width) (tiles_hz - 2)
  let top_y := min ((y - tile_height / 2) / tile_height) (tiles_vt - 2)
  .ok (⟨left_x, top_y⟩, ⟨left_x + 1, top_y⟩, ⟨left_x + 1, top_y + 1⟩, ⟨left_x, top_y + 1⟩)

/-- Rust `expr as u8` applied to a non-integer numeric value: truncate toward
zero and saturate into `[0, 255]` (for the non-negative values that reach the
cast, truncation toward zero agrees with the floor). -/
def f32ToU8 (q : ℚ) : Nat :=
  if q ≤ 0 then 0 else min 255 ⌊q⌋.toNat

/-- `imageproc::pixelops::interpolate` on one 8-bit channel:
`left * left_weight + right * (1 - left_weight)` followed by the cast back to
`u8`.  The source computes in `f32`; the model computes in `ℚ`. -/
def interpolate (left right : Nat) (left_weight : ℚ) : Nat :=
  f32ToU8 (left * left_weight + right * (1 - left_weight))

/-- The spatial classification chosen for one pixel by the
`if let`/`else if let`/`else` chain of `clahe` (lines 44-96). -/
inductive Region where
  | corner (t : TileCoordinate)
  | border (t0 t1 : TileCoordinate)
  | interior (t0 t1 t2 t3 : TileCoordinate)
  deriving DecidableEq

/-- The classification chain of the pixel pass of `clahe` (lines 44-96):
corner first, then border, then `get_neighbor_tiles(..).unwrap()`.  An `Err`
from `get_neighbor_tiles` would make the `unwrap` panic. -/
def classify_pixel (x y tiles_hz tiles_vt dim_x dim_y : Nat) : RustResult Region :=
  match is_corner_region x y tiles_hz tiles_vt dim_x dim_y with
  | .ok t => .ok (.corner t)
  | .panic => .panic
  | .err =>
    match is_border_region x y tiles_hz tiles_vt dim_x dim_y with
    | .ok (t0, t1) => .ok (.border t0 t1)
    | .panic => .panic
    | .err =>
      match get_neighbor_tiles x y tiles_hz tiles_vt dim_x dim_y with
      | .ok (t0, t1, t2, t3) => .ok (.interior t0 t1 t2 t3)
      | _ => .panic

/-- The lookup table built by the tile loop of `clahe` (lines 15-38) for grid
cell `(row, col)`: the last grid column and row absorb the division remainder
(lines 17-26), the tile histogram is clipped at 40 and mapped (lines 36-37).
`none` models the panic inside `clip_histogram`. -/
def lutForTile (input : GrayImage) (row col : Nat) : Option (List Nat) :=
  let tile_width := input.width / 8
  let tile_height := input.height / 8
  let region_width := if col = 7 then tile_width + input.width % 8 else tile_width
  let region_height := if row = 7 then tile_height + input.height % 8 else tile_height
  (clip_histogram
    (histogram (tilePixels input (tile_width * col) (tile_height * row)
      region_width region_height)) 40).map perform_gray_level_mapping

/-- The access `lookup_tables[t.y][t.x][v]` of the pixel pass (lines 52, 62-65,
98).  `none` models an out-of-bounds indexing panic; `v < 256` holds for every
`u8` sample. -/
def lookup_tables_at (input : GrayImage) (t : TileCoordinate) (v : Nat) : Option Nat :=
  if t.y < 8 ∧ t.x < 8 ∧ v < 256 then
    (lutForTile input t.y t.x).map (fun l => l.getD v 0)
  else none

/-- The output sample the pixel pass of `clahe` (lines 41-105) writes at
`(x, y)`, with `none` modelling any panic on the way.  The border branch keeps
the source structure verbatim, including the condition `tiles.0.y == tiles.0.y`
on line 69 (which compares a value with itself) and the weight axes of lines
66-75; the weight subtractions happen after the cast to `f32` (no underflow),
while the interior weights of lines 99-100 subtract on `u32` first, so they
are guarded. -/
def clahePixel (input : GrayImage) (x y : Nat) : Option Nat :=
  let tile_width := input.width / 8
  let tile_height := input.height / 8
  let val := input.data x y
  match classify_pixel x y 8 8 input.width input.height with
  | .panic => none
  | .err => none
  | .ok (.corner t) => lookup_tables_at input t val
  | .ok (.border t0 t1) =>
    match lookup_tables_at input t0 val, lookup_tables_at input t1 val with
    | some tile_pixel0, some tile_pixel1 =>
      let weight : ℚ :=
        if t0.x = t1.x then
          ((x : ℚ) - (get_pixel_coordinate_from_tile_coordinate t0.x tile_width : ℚ)) /
            (tile_width : ℚ)
        else if t0.y = t0.y then
          ((y : ℚ) - (get_pixel_coordinate_from_tile_coordinate t0.y tile_height : ℚ)) /
            (tile_height : ℚ)
        else 0
      some (if 0 < weight then interpolate tile_pixel0 tile_pixel1 (1 - weight)
            else interpolate tile_pixel1 tile_pixel0 (-weight))
    | _, _ => none
  | .ok (.interior t0 t1 t2 t3) =>
    match lookup_tables_at input t0 val, lookup_tables_at input t1 val,
        lookup_tables_at input t2 val, lookup_tables_at input t3 val with
    | some p0, some p1, some p2, some p3 =>
      if x < t0.x * tile_width + tile_width / 2 ∨
          y < t0.y * tile_height + tile_height / 2 then none else
      let x_weight : ℚ := ((x - (t0.x * tile_width + tile_width / 2) : Nat) : ℚ) /
        (tile_width : ℚ)
      let y_weight : ℚ := ((y - (t0.y * tile_height + tile_height / 2) : Nat) : ℚ) /
        (tile_height : ℚ)
      let intermediate_1 := interpolate p0 p1 (1 - x_weight)
      let intermediate_2 := interpolate p3 p2 (1 - x_weight)
      some (interpolate intermediate_1 intermediate_2 (1 - y_weight))
    | _, _, _, _ => none

/-- `clahe` (lines 6-108): tiles are fixed at 8 x 8 and the clip limit at 40;
the function builds the lookup tables, maps every pixel, and returns
`Ok(output)` (line 107) - there is no other return.  `none` models a panic
reached while processing any pixel. -/
def clahe (input : GrayImage) : Option GrayImage :=
  if (List.range input.width).all (fun x =>
      (List.range input.height).all (fun y => (clahePixel input x y).isSome)) then
    some ⟨input.width, input.height, fun x y => (clahePixel input x y).getD 0⟩
  else none

/-- Grid-cell indices usable with the 8 x 8 table `lookup_tables`. -/
def tileInBounds (t : TileCoordinate) : Prop :=
  t.x ≤ 7 ∧ t.y ≤ 7

/-- All governing tiles of a classified region are in grid bounds. -/
def regionInBounds : Region → Prop
  | .corner t => tileInBounds t
  | .border t0 t1 => tileInBounds t0 ∧ tileInBounds t1
  | .interior t0 t1 t2 t3 =>
      tileInBounds t0 ∧ tileInBounds t1 ∧ tileInBounds t2 ∧ tileInBounds t3

/-- For an interior region, the `u32` subtractions of lines 99-100 do not
underflow: the pixel lies at or after the center of the top-left tile on both
axes. -/
def interiorGuard (x y w h : Nat) : Region → Prop
  | .interior t0 _ _ _ =>
      t0.x * (w / 8) + w / 8 / 2 ≤ x ∧ t0.y * (h / 8) + h / 8 / 2 ≤ y
  | _ => True

/-- The 256-bin channel used to refute the clip bound: one bin holding
`296 = 40 + 256` counts. -/
def cexBins : List Nat :=
  296 :: List.replicate 255 0

/-- A two-channel histogram, as `clip_histogram` rejects it. -/
def twoChannelHist : ChannelHistogram :=
  ⟨[List.replicate 256 0, List.replicate 256 0]⟩

/-- A 4 x 4 all-black image: with the fixed 8 x 8 grid both tile extents are
`4 / 8 = 0`. -/
def c3Img : GrayImage :=
  ⟨4, 4, fun _ _ => 0⟩

/-- A 16 x 16 image (tile extents 2 x 2) whose tile `(1, 0)` holds four pixels
of intensity 100 and whose tile `(2, 0)` holds intensities 200, 200, 100, 200,
so the two lookup tables differ at input 100. -/
def c1Img : GrayImage :=
  ⟨16, 16, fun x y =>
    if 2 ≤ x ∧ x ≤ 3 ∧ y ≤ 1 then 100
    else if (x = 4 ∧ y = 0) ∨ (x = 5 ∧ y = 0) ∨ (x = 5 ∧ y = 1) then 200
    else if x = 4 ∧ y = 1 then 100
    else 0⟩

/-- An 8 x 8 all-black image (tile extents 1 x 1), used as a concrete witness
input. -/
def img8 : GrayImage :=
  ⟨8, 8, fun _ _ => 0⟩

/-! ### Histogram clipping -/

lemma clipChannel_length (bins : List Nat) (limit : Nat) :
    (clipChannel bins limit).length = bins.length := by
  simp [clipChannel]

lemma clip_sum_split (bins : List Nat) (limit : Nat) :
    (bins.map (fun c => if limit < c then limit else c)).sum + clipExcess bins limit
      = bins.sum := by
  induction bins with
  | nil => simp [clipExcess]
  | cons c rest ih =>
    simp only [clipExcess, List.map_cons, List.sum_cons] at ih ⊢
    split_ifs with hc <;> omega

lemma sum_map_add_const (l : List Nat) (k : Nat) :
    (l.map (fun c => c + k)).sum = l.sum + l.length * k := by
  induction l with
  | nil => simp
  | cons c rest ih =>
    simp only [List.map_cons, List.sum_cons, List.length_cons, Nat.succ_mul]
    omega

lemma clipChannel_sum (bins : List Nat) (limit : Nat) (hlen : bins.length = 256) :
    (clipChannel bins limit).sum + clipExcess bins limit % 256 = bins.sum := by
  have hsplit := clip_sum_split bins limit
  have hmod := Nat.div_add_mod (clipExcess bins limit) 256
  have hlen2 : (bins.map (fun c => if limit < c then limit else c)).length = 256 := by
    simpa using hlen
  calc (clipChannel bins limit).sum + clipExcess bins limit % 256
      = (bins.map (fun c => if limit < c then limit else c)).sum
          + 256 * (clipExcess bins limit / 256) + clipExcess bins limit % 256 := by
        rw [clipChannel, sum_map_add_const, hlen2]
    _ = bins.sum := by omega

/-- C4: `clip_histogram` clips each of the 256 bins to the limit while
accumulating the excess, then adds `excess / 256` to every bin; the clipped
mass never exceeds the unclipped mass and the deficit is exactly
`excess % 256 ≤ 255`. -/
theorem clip_redistribution (bins : List Nat) (limit : Nat) (hlen : bins.length = 256) :
    (∀ i, i < 256 →
      (clipChannel bins limit).getD i 0 =
        (if limit < bins.getD i 0 then limit else bins.getD i 0)
          + clipExcess bins limit / 256) ∧
    (clipChannel bins limit).sum + clipExcess bins limit % 256 = bins.sum ∧
    (clipChannel bins limit).sum ≤ bins.sum ∧
    clipExcess bins limit % 256 ≤ 255 := by
  have hsum := clipChannel_sum bins limit hlen
  refine ⟨?_, hsum, by omega, by omega⟩
  intro i hi
  have hi1 : i < bins.length := by omega
  have hi2 : i < (bins.map (fun c => if limit < c then limit else c)).length := by
    simpa using hi1
  have hi3 : i < (clipChannel bins limit).length := by
    rw [clipChannel_length]; exact hi1
  rw [List.getD_eq_getElem?_getD, List.getD_eq_getElem?_getD,
    List.getElem?_eq_getElem hi3, List.getElem?_eq_getElem hi1]
  simp [clipChannel]

/-- C4 witness at a concrete 256-bin histogram. -/
theorem clip_redistribution_witness :
    (∀ i, i < 256 →
      (clipChannel cexBins 40).getD i 0 =
        (if 40 < cexBins.getD i 0 then 40 else cexBins.getD i 0)
          + clipExcess cexBins 40 / 256) ∧
    (clipChannel cexBins 40).sum + clipExcess cexBins 40 % 256 = cexBins.sum ∧
    (clipChannel cexBins 40).sum ≤ cexBins.sum ∧
    clipExcess cexBins 40 % 256 ≤ 255 :=
  clip_redistribution cexBins 40 (by decide)

/-- C2 counterexample: clipping the single-channel histogram with one bin of
`296` at limit `40` returns a histogram whose first bin is `41 > 40`, because
the redistributed quotient is added on top of the clipped value. -/
theorem clip_bound_counterexample :
    clip_histogram ⟨[cexBins]⟩ 40 = some ⟨[41 :: List.replicate 255 1]⟩ ∧ 40 < 41 := by
  constructor
  · decide
  · decide

/-- C2 amended: every bin of the clipped histogram is at most the clip limit
plus the uniform redistribution quotient `excess / 256`. -/
theorem clip_bound_amended (h : ChannelHistogram) (limit : Nat) (h' : ChannelHistogram)
    (hclip : clip_histogram h limit = some h') (bins : List Nat)
    (hbins : bins ∈ h'.channels) (b : Nat) (hb : b ∈ bins) :
    b ≤ limit + clipExcess (h.channels.headD []) limit / 256 := by
  unfold clip_histogram at hclip
  split at hclip
  · exact absurd hclip (by simp)
  · rename_i hlen
    obtain ⟨c0, hc0⟩ := List.length_eq_one.mp (not_not.mp hlen)
    injection hclip with h1
    subst h1
    rw [hc0] at hbins ⊢
    simp only [List.map_cons, List.map_nil, List.mem_singleton] at hbins
    subst hbins
    simp only [List.headD_cons]
    simp only [clipChannel, List.mem_map] at hb
    obtain ⟨c1, hc1, rfl⟩ := hb
    obtain ⟨c2, hc2, rfl⟩ := hc1
    split_ifs with hcl <;> omega

/-- C2 amended witness: the over-limit bin of the counterexample satisfies the
amended bound with equality. -/
theorem clip_bound_amended_witness :
    (41 : Nat) ≤ 40 + clipExcess ((⟨[cexBins]⟩ : ChannelHistogram).channels.headD []) 40 / 256 :=
  clip_bound_amended ⟨[cexBins]⟩ 40 ⟨[41 :: List.replicate 255 1]⟩ (by decide)
    (41 :: List.replicate 255 1) (by decide) 41 (by decide)

/-- C8: a histogram with two channels makes `clip_histogram` hit the
`panic!("Too many channels!")` branch (modelled by `none`): the process is
terminated, no typed error value is returned to the caller. -/
theorem clip_two_channels_panics :
    clip_histogram twoChannelHist 40 = none := by
  decide

/-! ### Gray-level mapping -/

lemma prefixSums_length (l : List Nat) (a : Nat) :
    (prefixSums l a).length = l.length := by
  induction l generalizing a with
  | nil => rfl
  | cons c rest ih => simp [prefixSums, ih]

lemma prefixSums_le (l : List Nat) (a : Nat) : ∀ x ∈ prefixSums l a, a ≤ x := by
  induction l generalizing a with
  | nil => simp [prefixSums]
  | cons c rest ih =>
    intro x hx
    simp only [prefixSums, List.mem_cons] at hx
    rcases hx with rfl | hx
    · omega
    · have := ih (a + c) x hx
      omega

lemma prefixSums_pairwise (l : List Nat) (a : Nat) :
    (prefixSums l a).Pairwise (· ≤ ·) := by
  induction l generalizing a with
  | nil => exact List.Pairwise.nil
  | cons c rest ih =>
    refine List.Pairwise.cons (fun x hx => ?_) (ih (a + c))
    have := prefixSums_le rest (a + c) x hx
    omega

lemma pglm_pairwise (hist : ChannelHistogram) :
    (perform_gray_level_mapping hist).Pairwise (· ≤ ·) := by
  unfold perform_gray_level_mapping
  exact (prefixSums_pairwise _ 0).map _
    (fun a b hab => Nat.div_le_div_right (Nat.mul_le_mul_right 255 hab))

lemma pglm_length (hist : ChannelHistogram) :
    (perform_gray_level_mapping hist).length = (hist.channels.headD []).length := by
  simp [perform_gray_level_mapping, prefixSums_length]

lemma pairwise_getD_mono (l : List Nat) (hp : l.Pairwise (· ≤ ·)) (i j : Nat)
    (hij : i ≤ j) (hj : j < l.length) : l.getD i 0 ≤ l.getD j 0 := by
  rcases Nat.eq_or_lt_of_le hij with rfl | hlt
  · exact Nat.le_refl _
  · have hi : i < l.length := lt_trans hlt hj
    rw [List.getD_eq_getElem?_getD, List.getD_eq_getElem?_getD,
      List.getElem?_eq_getElem hi, List.getElem?_eq_getElem hj]
    simp only [Option.getD_some]
    exact List.pairwise_iff_getElem.mp hp i j hi hj hlt

lemma clip_histogram_single (c : List Nat) (limit : Nat) :
    clip_histogram ⟨[c]⟩ limit = some ⟨[clipChannel c limit]⟩ := by
  simp [clip_histogram]

/-- C6: every lookup table built by the tile loop of `clahe` has 256 entries
and is monotonically non-decreasing in the input intensity: the running
cumulative histogram sum is non-decreasing and the scaling and truncation are
monotone. -/
theorem lut_monotone (img : GrayImage) (row col : Nat) (lut : List Nat) (i j : Nat)
    (hlut : lutForTile img row col = some lut) (hij : i ≤ j) (hj : j < lut.length) :
    lut.getD i 0 ≤ lut.getD j 0 ∧ lut.length = 256 := by
  simp only [lutForTile, histogram] at hlut
  rw [clip_histogram_single] at hlut
  simp only [Option.map_some'] at hlut
  injection hlut with he
  subst he
  constructor
  · exact pairwise_getD_mono _ (pglm_pairwise _) i j hij hj
  · rw [pglm_length]
    simp [clipChannel_length]

/-- C6 witness: the table of tile `(0, 0)` of the all-black 8 x 8 image. -/
theorem lut_monotone_witness :
    (List.replicate 256 255).getD 0 0 ≤ (List.replicate 256 255).getD 7 0 ∧
    (List.replicate 256 255).length = 256 :=
  lut_monotone img8 0 0 (List.replicate 256 255) 0 7 (by decide) (by decide) (by decide)

/-! ### Region classification -/

lemma clamp_mul_add_le (x tw : Nat) (hx : tw / 2 < x) :
    min ((x - tw / 2) / tw) 6 * tw + tw / 2 ≤ x := by
  rcases Nat.le_total ((x - tw / 2) / tw) 6 with hq | hq
  · rw [min_eq_left hq]
    have h2 := Nat.div_mul_le_self (x - tw / 2) tw
    omega
  · rw [min_eq_right hq]
    have h2 := Nat.div_mul_le_self (x - tw / 2) tw
    have h6 : 6 * tw ≤ (x - tw / 2) / tw * tw := Nat.mul_le_mul_right tw hq
    omega

lemma tileInBounds_mk (a b : Nat) (ha : a ≤ 7) (hb : b ≤ 7) :
    tileInBounds ⟨a, b⟩ :=
  ⟨ha, hb⟩

/-- Every pixel is classified: the corner, border and interior tests of the
pixel pass, tried in source order on the fixed 8 x 8 grid, always end in
`.ok`, the resulting tile coordinates fit the 8 x 8 table, and for an interior
result the two weight subtractions cannot underflow.  This holds for all
dimensions, including degenerate ones with a zero tile extent. -/
lemma classify_pixel_total (x y w h : Nat) :
    ∃ r, classify_pixel x y 8 8 w h = .ok r ∧ regionInBounds r ∧
      interiorGuard x y w h r := by
  by_cases hc1 : x ≤ w / 8 / 2 ∧ y ≤ h / 8 / 2
  · have hc : is_corner_region x y 8 8 w h = .ok ⟨0, 0⟩ := by
      simp only [is_corner_region]
      split_ifs <;> first | rfl | (exfalso; first | omega | simp_all)
    exact ⟨.corner ⟨0, 0⟩, by unfold classify_pixel; rw [hc],
      tileInBounds_mk 0 0 (by omega) (by omega), trivial⟩
  by_cases hc2 : w / 8 * 8 - w / 8 / 2 < x ∧ y ≤ h / 8 / 2
  · have hc : is_corner_region x y 8 8 w h = .ok ⟨7, 0⟩ := by
      simp only [is_corner_region]
      split_ifs <;> first | rfl | (exfalso; first | omega | simp_all)
    exact ⟨.corner ⟨7, 0⟩, by unfold classify_pixel; rw [hc],
      tileInBounds_mk 7 0 (by omega) (by omega), trivial⟩
  by_cases hc3 : w / 8 * 8 - w / 8 / 2 < x ∧ h / 8 * 8 - h / 8 / 2 < y
  · have hc : is_corner_region x y 8 8 w h = .ok ⟨7, 7⟩ := by
      simp only [is_corner_region]
      split_ifs <;> first | rfl | (exfalso; first | omega | simp_all)
    exact ⟨.corner ⟨7, 7⟩, by unfold classify_pixel; rw [hc],
      tileInBounds_mk 7 7 (by omega) (by omega), trivial⟩
  by_cases hc4 : x ≤ w / 8 / 2 ∧ h / 8 * 8 - h / 8 / 2 < y
  · have hc : is_corner_region x y 8 8 w h = .ok ⟨0, 7⟩ := by
      simp only [is_corner_region]
      split_ifs <;> first | rfl | (exfalso; first | omega | simp_all)
    exact ⟨.corner ⟨0, 7⟩, by unfold classify_pixel; rw [hc],
      tileInBounds_mk 0 7 (by omega) (by omega), trivial⟩
  have hcerr : is_corner_region x y 8 8 w h = .err := by
    simp only [is_corner_region]
    split_ifs <;> first | rfl | (exfalso; first | omega | simp_all)
  by_cases hb1 : y ≤ h / 8 / 2
  · have hb : is_border_region x y 8 8 w h =
        .ok (⟨min ((x - w / 8 / 2) / (w / 8)) 6, 0⟩,
             ⟨min ((x - w / 8 / 2) / (w / 8)) 6 + 1, 0⟩) := by
      simp only [is_border_region]
      split_ifs <;> first | rfl | (exfalso; first | omega | simp_all)
    exact ⟨.border ⟨min ((x - w / 8 / 2) / (w / 8)) 6, 0⟩
        ⟨min ((x - w / 8 / 2) / (w / 8)) 6 + 1, 0⟩,
      by unfold classify_pixel; rw [hcerr, hb],
      ⟨tileInBounds_mk _ _ (by omega) (by omega),
        tileInBounds_mk _ _ (by omega) (by omega)⟩, trivial⟩
  by_cases hb2 : 8 * (h / 8) - h / 8 / 2 < y
  · have hb : is_border_region x y 8 8 w h =
        .ok (⟨min ((x - w / 8 / 2) / (w / 8)) 6, 7⟩,
             ⟨min ((x - w / 8 / 2) / (w / 8)) 6 + 1, 7⟩) := by
      simp only [is_border_region]
      split_ifs <;> first | rfl | (exfalso; first | omega | simp_all)
    exact ⟨.border ⟨min ((x - w / 8 / 2) / (w / 8)) 6, 7⟩
        ⟨min ((x - w / 8 / 2) / (w / 8)) 6 + 1, 7⟩,
      by unfold classify_pixel; rw [hcerr, hb],
      ⟨tileInBounds_mk _ _ (by omega) (by omega),
        tileInBounds_mk _ _ (by omega) (by omega)⟩, trivial⟩
  by_cases hb3 : x ≤ w / 8 / 2
  · have hb : is_border_region x y 8 8 w h =
        .ok (⟨0, min ((y - h / 8 / 2) / (h / 8)) 6⟩,
             ⟨0, min ((y - h / 8 / 2) / (h / 8)) 6 + 1⟩) := by
      simp only [is_border_region]
      split_ifs <;> first | rfl | (exfalso; first | omega | simp_all)
    exact ⟨.border ⟨0, min ((y - h / 8 / 2) / (h / 8)) 6⟩
        ⟨0, min ((y - h / 8 / 2) / (h / 8)) 6 + 1⟩,
      by unfold classify_pixel; rw [hcerr, hb],
      ⟨tileInBounds_mk _ _ (by omega) (by omega),
        tileInBounds_mk _ _ (by omega) (by omega)⟩, trivial⟩
  by_cases hb4 : 8 * (w / 8) - w / 8 / 2 < x
  · have hb : is_border_region x y 8 8 w h =
        .ok (⟨7, min ((y - h / 8 / 2) / (h / 8)) 6⟩,
             ⟨7, min ((y - h / 8 / 2) / (h / 8)) 6 + 1⟩) := by
      simp only [is_border_region]
      split_ifs <;> first | rfl | (exfalso; first | omega | simp_all)
    exact ⟨.border ⟨7, min ((y - h / 8 / 2) / (h / 8)) 6⟩
        ⟨7, min ((y - h / 8 / 2) / (h / 8)) 6 + 1⟩,
      by unfold classify_pixel; rw [hcerr, hb],
      ⟨tileInBounds_mk _ _ (by omega) (by omega),
        tileInBounds_mk _ _ (by omega) (by omega)⟩, trivial⟩
  have hberr : is_border_region x y 8 8 w h = .err := by
    simp only [is_border_region]
    split_ifs <;> first | rfl | (exfalso; first | omega | simp_all)
  have hn : get_neighbor_tiles x y 8 8 w h =
      .ok (⟨min ((x - w / 8 / 2) / (w / 8)) 6, min ((y - h / 8 / 2) / (h / 8)) 6⟩,
           ⟨min ((x - w / 8 / 2) / (w / 8)) 6 + 1, min ((y - h / 8 / 2) / (h / 8)) 6⟩,
           ⟨min ((x - w / 8 / 2) / (w / 8)) 6 + 1, min ((y - h / 8 / 2) / (h / 8)) 6 + 1⟩,
           ⟨min ((x - w / 8 / 2) / (w / 8)) 6, min ((y - h / 8 / 2) / (h / 8)) 6 + 1⟩) := by
    simp only [get_neighbor_tiles]
    split_ifs <;> first | rfl | (exfalso; first | omega | simp_all)
  refine ⟨.interior
      ⟨min ((x - w / 8 / 2) / (w / 8)) 6, min ((y - h / 8 / 2) / (h / 8)) 6⟩
      ⟨min ((x - w / 8 / 2) / (w / 8)) 6 + 1, min ((y - h / 8 / 2) / (h / 8)) 6⟩
      ⟨min ((x - w / 8 / 2) / (w / 8)) 6 + 1, min ((y - h / 8 / 2) / (h / 8)) 6 + 1⟩
      ⟨min ((x - w / 8 / 2) / (w / 8)) 6, min ((y - h / 8 / 2) / (h / 8)) 6 + 1⟩,
    by unfold classify_pixel; rw [hcerr, hberr, hn],
    ⟨tileInBounds_mk _ _ (by omega) (by omega),
      tileInBounds_mk _ _ (by omega) (by omega),
      tileInBounds_mk _ _ (by omega) (by omega),
      tileInBounds_mk _ _ (by omega) (by omega)⟩, ?_, ?_⟩
  · exact clamp_mul_add_le x (w / 8) (by omega)
  · exact clamp_mul_add_le y (h / 8) (by omega)

/-! ### The pixel pass and `clahe` -/

lemma lutForTile_isSome (img : GrayImage) (r c : Nat) :
    ∃ lut, lutForTile img r c = some lut := by
  simp only [lutForTile, histogram]
  rw [clip_histogram_single]
  exact ⟨_, rfl⟩

lemma lookup_tables_at_isSome (img : GrayImage) (t : TileCoordinate) (v : Nat)
    (hb : tileInBounds t) (hv : v ≤ 255) :
    ∃ n, lookup_tables_at img t v = some n := by
  obtain ⟨hbx, hby⟩ := hb
  obtain ⟨lut, hlut⟩ := lutForTile_isSome img t.y t.x
  refine ⟨lut.getD v 0, ?_⟩
  unfold lookup_tables_at
  rw [if_pos ⟨by omega, by omega, by omega⟩, hlut]
  rfl

lemma clahePixel_isSome (img : GrayImage) (x y : Nat) (hv : img.data x y ≤ 255) :
    (clahePixel img x y).isSome = true := by
  obtain ⟨r, hr, hb, hg⟩ := classify_pixel_total x y img.width img.height
  cases r with
  | corner t =>
    obtain ⟨n, hn⟩ := lookup_tables_at_isSome img t (img.data x y) hb hv
    simp [clahePixel, hr, hn]
  | border t0 t1 =>
    obtain ⟨hb0, hb1⟩ := hb
    obtain ⟨n0, hn0⟩ := lookup_tables_at_isSome img t0 (img.data x y) hb0 hv
    obtain ⟨n1, hn1⟩ := lookup_tables_at_isSome img t1 (img.data x y) hb1 hv
    simp [clahePixel, hr, hn0, hn1]
  | interior t0 t1 t2 t3 =>
    obtain ⟨hb0, hb1, hb2, hb3⟩ := hb
    obtain ⟨hg1, hg2⟩ := hg
    obtain ⟨n0, hn0⟩ := lookup_tables_at_isSome img t0 (img.data x y) hb0 hv
    obtain ⟨n1, hn1⟩ := lookup_tables_at_isSome img t1 (img.data x y) hb1 hv
    obtain ⟨n2, hn2⟩ := lookup_tables_at_isSome img t2 (img.data x y) hb2 hv
    obtain ⟨n3, hn3⟩ := lookup_tables_at_isSome img t3 (img.data x y) hb3 hv
    have hguard : ¬(x < t0.x * (img.width / 8) + img.width / 8 / 2 ∨
        y < t0.y * (img.height / 8) + img.height / 8 / 2) := by omega
    simp [clahePixel, hr, hn0, hn1, hn2, hn3, hguard]

lemma clahe_total (img : GrayImage) (hv : ∀ i j, img.data i j ≤ 255) :
    clahe img = some ⟨img.width, img.height,
      fun x y => (clahePixel img x y).getD 0⟩ := by
  have hall : ((List.range img.width).all (fun x =>
      (List.range img.height).all (fun y => (clahePixel img x y).isSome))) = true := by
    rw [List.all_eq_true]
    intro x hx
    rw [List.all_eq_true]
    intro y hy
    exact clahePixel_isSome img x y (hv x y)
  unfold clahe
  rw [if_pos hall]

/-- C5: with a valid grid (both tile extents at least 1) every pixel of the
image is classified: the corner, border and interior tests, tried in source
order, accept exactly one region for the pixel, and the pass never reaches an
unclassified or panicking path (`classify_pixel` models every underflow,
division by zero and the `unwrap` on `Err` as `.panic`, and as a function it
returns a single result). -/
theorem classification_exhaustive (W H x y : Nat) (htw : 1 ≤ W / 8) (hth : 1 ≤ H / 8)
    (hx : x < W) (hy : y < H) :
    ∃ r, classify_pixel x y 8 8 W H = RustResult.ok r := by
  obtain ⟨r, hr, -, -⟩ := classify_pixel_total x y W H
  exact ⟨r, hr⟩

/-- C5 witness at the pixel `(3, 3)` of an 8 x 8 image. -/
theorem classification_exhaustive_witness :
    ∃ r, classify_pixel 3 3 8 8 8 8 = RustResult.ok r :=
  classification_exhaustive 8 8 3 3 (by decide) (by decide) (by decide) (by decide)

/-- C10: on an image of at least 8 x 8, every tile coordinate produced by the
classifiers is within the 8 x 8 grid (the `min` clamps bound the lower index
by 6 and the paired index by 7), `get_neighbor_tiles` never returns `Err` (so
the `unwrap` in the interior branch cannot panic), and every lookup-table
access of the pixel pass is in bounds, making the whole per-pixel computation
succeed. -/
theorem tile_bounds (img : GrayImage) (x y : Nat) (hW : 8 ≤ img.width)
    (hH : 8 ≤ img.height) (hx : x < img.width) (hy : y < img.height)
    (hv : img.data x y ≤ 255) :
    (∃ r, classify_pixel x y 8 8 img.width img.height = RustResult.ok r ∧
      regionInBounds r) ∧
    get_neighbor_tiles x y 8 8 img.width img.height ≠ RustResult.err ∧
    (clahePixel img x y).isSome = true := by
  obtain ⟨r, hr, hb, -⟩ := classify_pixel_total x y img.width img.height
  refine ⟨⟨r, hr, hb⟩, ?_, clahePixel_isSome img x y hv⟩
  simp only [get_neighbor_tiles]
  split_ifs <;> simp

/-- C10 witness at the pixel `(4, 4)` of the all-black 8 x 8 image. -/
theorem tile_bounds_witness :
    (∃ r, classify_pixel 4 4 8 8 img8.width img8.height = RustResult.ok r ∧
      regionInBounds r) ∧
    get_neighbor_tiles 4 4 8 8 img8.width img8.height ≠ RustResult.err ∧
    (clahePixel img8 4 4).isSome = true :=
  tile_bounds img8 4 4 (by decide) (by decide) (by decide) (by decide) (by decide)

/-- C9: `clahe` is a pure function of the input image (tile counts and clip
limit are constants in its body), so repeated invocations on the same input
produce identical outputs. -/
theorem clahe_deterministic (img1 img2 : GrayImage) (heq : img1 = img2) :
    clahe img1 = clahe img2 :=
  congrArg clahe heq

/-- C9 witness. -/
theorem clahe_deterministic_witness : clahe img8 = clahe img8 :=
  clahe_deterministic img8 img8 rfl

/-- C7: the pixel `(0, 0)` always satisfies the first corner test (its
coordinates are at most the half tile extents), is governed by tile `(0, 0)`,
and the output of `clahe` at `(0, 0)` is exactly the entry of that single tile
table at the input intensity, with no interpolation. -/
theorem corner_exact (img : GrayImage) (hW : 1 ≤ img.width) (hH : 1 ≤ img.height)
    (hv : ∀ i j, img.data i j ≤ 255) :
    is_corner_region 0 0 8 8 img.width img.height = RustResult.ok ⟨0, 0⟩ ∧
    ∃ out lut, clahe img = some out ∧ lutForTile img 0 0 = some lut ∧
      out.data 0 0 = lut.getD (img.data 0 0) 0 := by
  have hc : is_corner_region 0 0 8 8 img.width img.height = RustResult.ok ⟨0, 0⟩ := by
    simp only [is_corner_region]
    split_ifs <;> first | rfl | (exfalso; first | omega | simp_all)
  refine ⟨hc, ?_⟩
  obtain ⟨lut, hlut⟩ := lutForTile_isSome img 0 0
  refine ⟨_, lut, clahe_total img hv, hlut, ?_⟩
  have hclass : classify_pixel 0 0 8 8 img.width img.height =
      RustResult.ok (Region.corner ⟨0, 0⟩) := by
    unfold classify_pixel
    rw [hc]
  have hval := hv 0 0
  simp only [clahePixel]
  rw [hclass]
  simp only [lookup_tables_at]
  rw [if_pos ⟨by omega, by omega, by omega⟩]
  rw [hlut]
  rfl

/-- C7 witness on the all-black 8 x 8 image. -/
theorem corner_exact_witness :
    is_corner_region 0 0 8 8 img8.width img8.height = RustResult.ok ⟨0, 0⟩ ∧
    ∃ out lut, clahe img8 = some out ∧ lutForTile img8 0 0 = some lut ∧
      out.data 0 0 = lut.getD (img8.data 0 0) 0 :=
  corner_exact img8 (by decide) (by decide) (fun _ _ => Nat.zero_le 255)

/-- C3 (code bug): the source makes no dimension check and defines no
`ConfigError`.  On a 4 x 4 input, where both tile extents are `4 / 8 = 0`,
`clahe` silently carries out the whole computation and returns `Ok` with a
fully written output image: the pixel `(3, 3)` is classified as the
bottom-right corner and mapped through the table of tile `(7, 7)` to 255. -/
theorem no_config_error_on_degenerate_input :
    (clahe c3Img).isSome = true ∧
    (clahe c3Img).map (fun out => out.data 3 3) = some 255 := by
  have h := clahe_total c3Img (fun _ _ => Nat.zero_le 255)
  rw [h]
  exact ⟨rfl, by decide⟩

/-- C1 (code bug): pixel `(4, 1)` of `c1Img` is a top-border pixel whose
governing tiles are the horizontal neighbours `(1, 0)` and `(2, 0)`, with
table values 255 and 63 at the input intensity 100.  The claimed weight is the
`x` offset from the first tile center `(3, _)` over the tile extent 2, namely
`1/2`, giving the blend 159; the source instead takes the branch of line 69
(which compares `tiles.0.y` with itself and is always true for a horizontal
pair) and uses the `y` offset from the row center, namely `0`, outputting the
first tile value 255 unblended. -/
theorem border_weight_uses_wrong_axis :
    classify_pixel 4 1 8 8 16 16 = RustResult.ok (Region.border ⟨1, 0⟩ ⟨2, 0⟩) ∧
    lookup_tables_at c1Img ⟨1, 0⟩ 100 = some 255 ∧
    lookup_tables_at c1Img ⟨2, 0⟩ 100 = some 63 ∧
    clahePixel c1Img 4 1 = some 255 ∧
    interpolate 255 63 (1 - 1 / 2) = 159 := by
  refine ⟨by decide, by decide, by decide, ?_, ?_⟩
  · have hw : c1Img.width = 16 := rfl
    have hh : c1Img.height = 16 := rfl
    have hd : c1Img.data 4 1 = 100 := rfl
    have hcl : classify_pixel 4 1 8 8 16 16 =
        RustResult.ok (Region.border ⟨1, 0⟩ ⟨2, 0⟩) := by decide
    have h0 : lookup_tables_at c1Img ⟨1, 0⟩ 100 = some 255 := by decide
    have h1 : lookup_tables_at c1Img ⟨2, 0⟩ 100 = some 63 := by decide
    simp only [clahePixel, hw, hh, hd, hcl, h0, h1]
    norm_num [get_pixel_coordinate_from_tile_coordinate, interpolate, f32ToU8]
  · norm_num [interpolate, f32ToU8]
    decide
